import Mathlib

/-!
Verification of `tika/unpack.py`.

A shallow embedding in Lean 4 of the archive-decoding module `tika/unpack.py`
(the `_csv_encode` / `_csv_decode` escape pair, the `_parse` decoder and its
helpers), together with proofs of the specified properties.

Conventions:
* Python `bytes` are modelled as `List Nat` (each element `< 256` where relevant).
* Python `dict` (insertion-ordered, in-place overwrite on existing key) is
  modelled as an association list with `dictInsert` / `dictGet?`.
* Exceptions are modelled with `Except String` / `Option`.
-/

namespace Tika.Unpack

/-- A Python byte. -/
abbrev Byte := Nat

/-- Python `dict` assignment `d[k] = v`: overwrites in place when the key is
present, otherwise appends (insertion order is preserved). -/
def dictInsert {α : Type} (d : List (String × α)) (k : String) (v : α) :
    List (String × α) :=
  if d.any (fun p => p.1 == k) then
    d.map (fun p => if p.1 == k then (k, v) else p)
  else d ++ [(k, v)]

/-- Python `d.get(k)`: value of the first (equivalently, for our dicts, unique)
binding of `k`. -/
def dictGet? {α : Type} (d : List (String × α)) (k : String) : Option α :=
  (d.find? (fun p => p.1 == k)).map (fun p => p.2)

/-! ## The `unicode-escape` codec

`_csv_encode = lambda x: x.encode('unicode-escape').decode('ascii')` and
`_csv_decode = lambda x: x.encode('ascii').decode('unicode-escape')`
(Python 3 branch of the source).  We model CPython's `unicode-escape`
codec character by character. -/

/-- Lower-case hex digit, as produced by CPython's escape formatting. -/
def hexDigitChar (n : Nat) : Char :=
  if n < 10 then Char.ofNat (48 + n) else Char.ofNat (87 + n)

/-- Big-endian fixed-width hex rendering (`%02x`, `%04x`, `%08x`). -/
def toHex : Nat → Nat → List Char
  | 0, _ => []
  | w + 1, n => hexDigitChar (n / 16 ^ w % 16) :: toHex w n

/-- Value of a hex digit (both cases accepted by CPython's escape decoder). -/
def hexVal? (c : Char) : Option Nat :=
  if '0' ≤ c ∧ c ≤ '9' then some (c.toNat - 48)
  else if 'a' ≤ c ∧ c ≤ 'f' then some (c.toNat - 87)
  else if 'A' ≤ c ∧ c ≤ 'F' then some (c.toNat - 55)
  else none

def isOctalDigit (c : Char) : Bool := '0' ≤ c && c ≤ '7'

def octVal (c : Char) : Nat := c.toNat - 48

/-- One character of CPython's `unicode-escape` *encoder*: backslash and
`\t`, `\n`, `\r` get letter escapes; other chars below `0x20`, and
`0x7f`–`0xff`, become `\xhh`; printable ASCII is copied literally;
`0x100`–`0xffff` becomes `\uhhhh`; larger code points become `\Uhhhhhhhh`. -/
def escapeChar (c : Char) : List Char :=
  if c = '\\' then ['\\', '\\']
  else if c = '\t' then ['\\', 't']
  else if c = '\n' then ['\\', 'n']
  else if c = '\r' then ['\\', 'r']
  else if c.toNat < 32 ∨ c.toNat = 127 then '\\' :: 'x' :: toHex 2 c.toNat
  else if c.toNat < 127 then [c]
  else if c.toNat ≤ 255 then '\\' :: 'x' :: toHex 2 c.toNat
  else if c.toNat ≤ 65535 then '\\' :: 'u' :: toHex 4 c.toNat
  else '\\' :: 'U' :: toHex 8 c.toNat

/-- `x.encode('unicode-escape').decode('ascii')` — the escape step applied to a
whole string.  The encoder's output is pure ASCII, so the `'ascii'` decode
always succeeds and the function is total. -/
def _csv_encode (s : String) : String :=
  String.mk (s.data.map escapeChar).flatten

/-- One step of CPython's `unicode-escape` *decoder* on a non-empty input:
consumes either a single literal character or one whole escape sequence.
A non-backslash character stands for itself; after a backslash the decoder
recognises a line continuation (`\<LF>`, which produces no character),
the letter escapes, 1–3 octal digits, `\xhh`, `\uhhhh`, `\Uhhhhhhhh` (the
latter rejected above `0x10ffff`), and keeps unknown escapes verbatim
(two characters).  A truncated `\x`/`\u`/`\U` escape or a trailing lone
backslash is an error (`none`).  `\N{...}` name lookup is not modelled (it is
never produced by the encoder); we map it to an error.
Result: `some (produced characters, remaining input)`. -/
def unescapeStep (c : Char) (rest : List Char) : Option (List Char × List Char) :=
  if c = '\\' then
    match rest with
    | [] => none
    | e :: rs =>
      if e = '\n' then some ([], rs)
      else if e = '\\' then some (['\\'], rs)
      else if e = '\'' then some (['\''], rs)
      else if e = '"' then some (['"'], rs)
      else if e = 'b' then some ([Char.ofNat 8], rs)
      else if e = 'f' then some ([Char.ofNat 12], rs)
      else if e = 't' then some (['\t'], rs)
      else if e = 'n' then some (['\n'], rs)
      else if e = 'r' then some (['\r'], rs)
      else if e = 'v' then some ([Char.ofNat 11], rs)
      else if e = 'a' then some ([Char.ofNat 7], rs)
      else if isOctalDigit e then
        match rs with
        | c2 :: c3 :: rs2 =>
          if isOctalDigit c2 then
            if isOctalDigit c3 then
              some ([Char.ofNat (64 * octVal e + 8 * octVal c2 + octVal c3)], rs2)
            else some ([Char.ofNat (8 * octVal e + octVal c2)], c3 :: rs2)
          else some ([Char.ofNat (octVal e)], c2 :: c3 :: rs2)
        | [c2] =>
          if isOctalDigit c2 then some ([Char.ofNat (8 * octVal e + octVal c2)], [])
          else some ([Char.ofNat (octVal e)], [c2])
        | [] => some ([Char.ofNat (octVal e)], [])
      else if e = 'x' then
        match rs with
        | d1 :: d2 :: rs2 =>
          match hexVal? d1, hexVal? d2 with
          | some a, some b => some ([Char.ofNat (16 * a + b)], rs2)
          | _, _ => none
        | _ => none
      else if e = 'u' then
        match rs with
        | d1 :: d2 :: d3 :: d4 :: rs2 =>
          match hexVal? d1, hexVal? d2, hexVal? d3, hexVal? d4 with
          | some a, some b, some cc, some d =>
            some ([Char.ofNat (4096 * a + 256 * b + 16 * cc + d)], rs2)
          | _, _, _, _ => none
        | _ => none
      else if e = 'U' then
        match rs with
        | d1 :: d2 :: d3 :: d4 :: d5 :: d6 :: d7 :: d8 :: rs2 =>
          match hexVal? d1, hexVal? d2, hexVal? d3, hexVal? d4,
                hexVal? d5, hexVal? d6, hexVal? d7, hexVal? d8 with
          | some a1, some a2, some a3, some a4, some a5, some a6, some a7, some a8 =>
            let v := ((((((a1 * 16 + a2) * 16 + a3) * 16 + a4) * 16 + a5) * 16
                        + a6) * 16 + a7) * 16 + a8
            if v ≤ 1114111 then some ([Char.ofNat v], rs2)
            else none
          | _, _, _, _, _, _, _, _ => none
        | _ => none
      else if e = 'N' then none
      else some (['\\', e], rs)
  else some ([c], rest)

/-- Driver for `unescapeStep`.  The fuel argument only serves structural
recursion; `unescapeStep` always consumes at least one character, so fuel
equal to the input length (as supplied by `unicodeUnescape`) never runs out. -/
def unescapeLoop : Nat → List Char → Option (List Char)
  | _, [] => some []
  | 0, _ :: _ => none
  | fuel + 1, c :: rest =>
    match unescapeStep c rest with
    | none => none
    | some (produced, rem) => (unescapeLoop fuel rem).map (fun t => produced ++ t)

/-- CPython's `unicode-escape` *decoder* over a whole character list. -/
def unicodeUnescape (l : List Char) : Option (List Char) :=
  unescapeLoop l.length l

/-- `x.encode('ascii').decode('unicode-escape')` — the unescape step.
The `'ascii'` encode raises on any character `≥ 0x80`. -/
def _csv_decode (s : String) : Option String :=
  if s.data.all (fun c => c.toNat < 128) then
    (unicodeUnescape s.data).map String.mk
  else none

/-! ## Tar archive model -/

/-- The member types distinguished by `_parse` through `TarInfo.issym()` and
`TarInfo.isfile()`: regular file, symbolic link, directory, anything else
(hard link, fifo, device, ...). -/
inductive FType where
  | reg
  | sym
  | dir
  | other
deriving DecidableEq, BEq

/-- A tar archive member: a `tarfile.TarInfo` plus the byte content that
`tarFile.extractfile(member).read()` would yield. -/
structure TarMember where
  name : String
  ftype : FType
  content : List Byte
deriving DecidableEq, BEq

/-- `TarInfo.issym()`. -/
def TarMember.issym (m : TarMember) : Bool := m.ftype == FType.sym

/-- `TarInfo.isfile()`: true exactly for regular files. -/
def TarMember.isfile (m : TarMember) : Bool := m.ftype == FType.reg

/-- `tarFile.getnames()` (in archive order, duplicates included). -/
def getnames (tarFile : List TarMember) : List String :=
  tarFile.map (fun m => m.name)

/-- `tarFile.getmember(name)`: tarfile resolves a name to its *last*
occurrence in the archive ("its last occurrence is assumed to be the
more up-to-date version").  `none` models the `KeyError`. -/
def getmember (tarFile : List TarMember) (name : String) : Option TarMember :=
  (tarFile.filter (fun m => m.name == name)).getLast?

/-! ## Reading the `__TEXT__` member -/

/-- Strict UTF-8 decoding of a byte list (rejecting truncated or overlong
sequences, surrogates, and values above U+10FFFF), as CPython's `utf8`
codec does with the default `errors='strict'`. -/
def utf8Decode : List Byte → Option (List Char)
  | [] => some []
  | b :: rest =>
    if b < 128 then (utf8Decode rest).map (fun t => Char.ofNat b :: t)
    else if b < 194 then none
    else if b < 224 then
      match rest with
      | b2 :: rest2 =>
        if 128 ≤ b2 ∧ b2 < 192 then
          (utf8Decode rest2).map (fun t => Char.ofNat ((b - 192) * 64 + (b2 - 128)) :: t)
        else none
      | [] => none
    else if b < 240 then
      match rest with
      | b2 :: b3 :: rest2 =>
        if (if b = 224 then 160 ≤ b2 ∧ b2 < 192
            else if b = 237 then 128 ≤ b2 ∧ b2 < 160
            else 128 ≤ b2 ∧ b2 < 192) ∧ 128 ≤ b3 ∧ b3 < 192 then
          (utf8Decode rest2).map
            (fun t => Char.ofNat ((b - 224) * 4096 + (b2 - 128) * 64 + (b3 - 128)) :: t)
        else none
      | _ => none
    else if b < 245 then
      match rest with
      | b2 :: b3 :: b4 :: rest2 =>
        if (if b = 240 then 144 ≤ b2 ∧ b2 < 192
            else if b = 244 then 128 ≤ b2 ∧ b2 < 144
            else 128 ≤ b2 ∧ b2 < 192) ∧ 128 ≤ b3 ∧ b3 < 192 ∧ 128 ≤ b4 ∧ b4 < 192 then
          (utf8Decode rest2).map
            (fun t => Char.ofNat ((b - 240) * 262144 + (b2 - 128) * 4096
                        + (b3 - 128) * 64 + (b4 - 128)) :: t)
        else none
      | _ => none
    else none

/-- Universal-newlines translation performed on read by `io.TextIOWrapper`
with the default `newline=None` (which is what `_text_wrapper` uses in
`_parse`): `"\r\n"` and a lone `"\r"` both become `"\n"`. -/
def translateNewlines : List Char → List Char
  | [] => []
  | '\r' :: '\n' :: rest => '\n' :: translateNewlines rest
  | '\r' :: rest => '\n' :: translateNewlines rest
  | c :: rest => c :: translateNewlines rest

/-- Reading the `__TEXT__` member through
`_text_wrapper(tarFile.extractfile(contentMember), encoding='utf8').read()`:
strict UTF-8 decoding followed by universal-newlines translation.
`none` models the propagated `UnicodeDecodeError`. -/
def readText (b : List Byte) : Option String :=
  (utf8Decode b).map (fun cs => String.mk (translateNewlines cs))

/-! ## The decoder `_parse` -/

/-- A metadata value: `_parse` stores a plain string for a row with exactly
one value after the key, and the ordered value list for a longer row. -/
inductive MetaVal where
  | scalar (s : String)
  | seq (l : List String)
deriving DecidableEq, BEq

abbrev Metadata := List (String × MetaVal)

/-- One iteration of the metadata loop in `_parse`:
`assert len(metadataLine) >= 2`, then store `metadataLine[1:]` (a list) when
the row has more than two fields and `metadataLine[1]` (a scalar) otherwise,
under key `metadataLine[0]`. -/
def metadataStep (metadata : Metadata) (metadataLine : List String) :
    Except String Metadata :=
  if metadataLine.length ≥ 2 then
    if metadataLine.length > 2 then
      .ok (dictInsert metadata (metadataLine.headD "") (MetaVal.seq metadataLine.tail))
    else
      .ok (dictInsert metadata (metadataLine.headD "")
            (MetaVal.scalar (metadataLine.tail.headD "")))
  else .error "AssertionError: len(metadataLine) >= 2"

/-- The metadata loop over all parsed CSV rows. -/
def processMetadataLines (rows : List (List String)) : Except String Metadata :=
  rows.foldlM metadataStep []

/-- The values of the result dictionary `parsed`, which maps `"content"` to
text, `"metadata"` to a metadata dict and `"attachments"` to a bytes dict —
on the non-short-circuit path; the short-circuit path returns `parsed = {}`
with no keys at all, which is why the result is a dictionary and not a
fixed record. -/
inductive PValue where
  | text (s : String)
  | meta (m : Metadata)
  | attach (a : List (String × List Byte))
deriving DecidableEq, BEq

/-- The decoder's result dictionary `parsed`. -/
abbrev ParsedResult := List (String × PValue)

/-- The metadata-extraction block of `_parse`: if `"__METADATA__"` is among
the working member names, remove it (first occurrence) and, when the member
is a regular file and not a symlink, run the CSV pipeline and the metadata
loop over its content.  Returns the updated working name list and the
metadata dict.  `csvRows` abstracts the `_text_wrapper` + `_wrapped_csv`
stdlib pipeline that turns the raw `__METADATA__` bytes into parsed rows. -/
def metadataStage (csvRows : List Byte → Except String (List (List String)))
    (tarFile : List TarMember) (memberNames : List String) :
    Except String (List String × Metadata) :=
  if memberNames.contains "__METADATA__" then
    match getmember tarFile "__METADATA__" with
    | none => .error "KeyError"
    | some m =>
      if !m.issym && m.isfile then
        match csvRows m.content with
        | .error e => .error e
        | .ok rows =>
          match processMetadataLines rows with
          | .error e => .error e
          | .ok md => .ok (memberNames.erase "__METADATA__", md)
      else .ok (memberNames.erase "__METADATA__", [])
  else .ok (memberNames, [])

/-- The content-extraction block of `_parse`: if `"__TEXT__"` is among the
working member names, remove it (first occurrence) and, when the member is a
regular file and not a symlink, read it as UTF-8 text.  `content` starts as
the empty string. -/
def contentStage (tarFile : List TarMember) (memberNames : List String) :
    Except String (List String × String) :=
  if memberNames.contains "__TEXT__" then
    match getmember tarFile "__TEXT__" with
    | none => .error "KeyError"
    | some m =>
      if !m.issym && m.isfile then
        match readText m.content with
        | some s => .ok (memberNames.erase "__TEXT__", s)
        | none => .error "UnicodeDecodeError"
      else .ok (memberNames.erase "__TEXT__", "")
  else .ok (memberNames, "")

/-- The attachments loop of `_parse`: every remaining working member name
that resolves to a regular (non-symlink) member gets its raw bytes stored
under the member name; other names are skipped. -/
def attachmentsStage (tarFile : List TarMember) (memberNames : List String) :
    Except String (List (String × List Byte)) :=
  memberNames.foldlM
    (fun attachments attachment =>
      match getmember tarFile attachment with
      | none => .error "KeyError"
      | some m =>
        if !m.issym && m.isfile then
          .ok (dictInsert attachments attachment m.content)
        else .ok attachments)
    []

/-- The working member-name list after the `__METADATA__` and `__TEXT__`
removals: what the attachments loop iterates over.  (`List.erase` is a no-op
when the name is absent, matching the guarded `list.remove` calls.) -/
def remainingNames (tarFile : List TarMember) : List String :=
  ((getnames tarFile).erase "__METADATA__").erase "__TEXT__"

/-- What the attachments loop would store for a given name: the raw bytes of
the member the name resolves to when that member is a regular non-symlink
file, nothing otherwise. -/
def attachValue (tarFile : List TarMember) (name : String) : Option (List Byte) :=
  match getmember tarFile name with
  | some m => if !m.issym && m.isfile then some m.content else none
  | none => none

/-- The body of `_parse` once `tarfile.open` has produced the member list. -/
def parseArchive (csvRows : List Byte → Except String (List (List String)))
    (tarFile : List TarMember) : Except String ParsedResult := do
  let memberNames := getnames tarFile
  let (memberNames, metadata) ← metadataStage csvRows tarFile memberNames
  let (memberNames, content) ← contentStage tarFile memberNames
  let attachments ← attachmentsStage tarFile memberNames
  pure [("content", PValue.text content), ("metadata", PValue.meta metadata),
        ("attachments", PValue.attach attachments)]

/-- `_parse(tarOutput)`.  `tarOutput` is either falsy (`none`) or a pair of
the HTTP status code and the raw response bytes (inner `none` models Python
`None`).  `tarOpen` abstracts `tarfile.open(fileobj=BytesIO(bytes))`, the
stdlib tar-stream parser: it returns the archive's member list or raises.
`csvRows` abstracts the CSV pipeline, see `metadataStage`. -/
def _parse (tarOpen : List Byte → Except String (List TarMember))
    (csvRows : List Byte → Except String (List (List String)))
    (tarOutput : Option (Nat × Option (List Byte))) : Except String ParsedResult :=
  match tarOutput with
  | none => .ok []
  | some (_, response) =>
    match response with
    | none => .ok []
    | some bytes =>
      if bytes = [] then .ok []
      else
        match tarOpen bytes with
        | .error e => .error e
        | .ok tarFile => parseArchive csvRows tarFile


/-! ## Helper lemmas: the escape round-trip -/



theorem char_toNat_lt (c : Char) : c.toNat < 1114112 := by
  have h := c.valid
  rcases h with h | ⟨h1, h2⟩
  · show c.val.toNat < 1114112
    omega
  · show c.val.toNat < 1114112
    omega

theorem hexVal?_hexDigitChar (d : Nat) (hd : d < 16) : hexVal? (hexDigitChar d) = some d := by
  interval_cases d <;> decide

theorem loop_cons (fuel : Nat) (c : Char) (rest : List Char) :
    unescapeLoop (fuel + 1) (c :: rest) =
      match unescapeStep c rest with
      | none => none
      | some (produced, rem) => (unescapeLoop fuel rem).map (fun t => produced ++ t) := rfl

theorem step_literal (c : Char) (cs : List Char) (h : ¬ c = '\\') :
    unescapeStep c cs = some ([c], cs) := by
  simp only [unescapeStep]
  rw [if_neg h]

theorem step_x (a b : Nat) (d1 d2 : Char) (cs : List Char) (h1 : hexVal? d1 = some a)
    (h2 : hexVal? d2 = some b) :
    unescapeStep '\\' ('x' :: d1 :: d2 :: cs) = some ([Char.ofNat (16 * a + b)], cs) := by
  have e : unescapeStep '\\' ('x' :: d1 :: d2 :: cs) =
      (match hexVal? d1, hexVal? d2 with
        | some a, some b => some ([Char.ofNat (16 * a + b)], cs)
        | _, _ => none) := rfl
  rw [e, h1, h2]

theorem step_u (a b cc d : Nat) (d1 d2 d3 d4 : Char) (cs : List Char)
    (h1 : hexVal? d1 = some a) (h2 : hexVal? d2 = some b)
    (h3 : hexVal? d3 = some cc) (h4 : hexVal? d4 = some d) :
    unescapeStep '\\' ('u' :: d1 :: d2 :: d3 :: d4 :: cs) =
      some ([Char.ofNat (4096 * a + 256 * b + 16 * cc + d)], cs) := by
  have e : unescapeStep '\\' ('u' :: d1 :: d2 :: d3 :: d4 :: cs) =
      (match hexVal? d1, hexVal? d2, hexVal? d3, hexVal? d4 with
        | some a, some b, some cc, some d =>
          some ([Char.ofNat (4096 * a + 256 * b + 16 * cc + d)], cs)
        | _, _, _, _ => none) := rfl
  rw [e, h1, h2, h3, h4]

theorem step_bigU (a1 a2 a3 a4 a5 a6 a7 a8 : Nat) (d1 d2 d3 d4 d5 d6 d7 d8 : Char)
    (cs : List Char)
    (h1 : hexVal? d1 = some a1) (h2 : hexVal? d2 = some a2)
    (h3 : hexVal? d3 = some a3) (h4 : hexVal? d4 = some a4)
    (h5 : hexVal? d5 = some a5) (h6 : hexVal? d6 = some a6)
    (h7 : hexVal? d7 = some a7) (h8 : hexVal? d8 = some a8) :
    unescapeStep '\\' ('U' :: d1 :: d2 :: d3 :: d4 :: d5 :: d6 :: d7 :: d8 :: cs) =
      (if ((((((a1 * 16 + a2) * 16 + a3) * 16 + a4) * 16 + a5) * 16
              + a6) * 16 + a7) * 16 + a8 ≤ 1114111 then
        some ([Char.ofNat (((((((a1 * 16 + a2) * 16 + a3) * 16 + a4) * 16 + a5) * 16
              + a6) * 16 + a7) * 16 + a8)], cs)
      else none) := by
  have e : unescapeStep '\\' ('U' :: d1 :: d2 :: d3 :: d4 :: d5 :: d6 :: d7 :: d8 :: cs) =
      (match hexVal? d1, hexVal? d2, hexVal? d3, hexVal? d4,
             hexVal? d5, hexVal? d6, hexVal? d7, hexVal? d8 with
        | some a1, some a2, some a3, some a4, some a5, some a6, some a7, some a8 =>
          let v := ((((((a1 * 16 + a2) * 16 + a3) * 16 + a4) * 16 + a5) * 16
                      + a6) * 16 + a7) * 16 + a8
          if v ≤ 1114111 then some ([Char.ofNat v], cs)
          else none
        | _, _, _, _, _, _, _, _ => none) := rfl
  rw [e, h1, h2, h3, h4, h5, h6, h7, h8]

theorem loop_of_step (fuel : Nat) (c : Char) (rest out rem : List Char)
    (h : unescapeStep c rest = some (out, rem)) :
    unescapeLoop (fuel + 1) (c :: rest) = (unescapeLoop fuel rem).map (fun t => out ++ t) := by
  rw [loop_cons, h]

theorem unescapeLoop_escapeChar (c : Char) (cs : List Char) (fuel : Nat) :
    unescapeLoop (fuel + 1) (escapeChar c ++ cs) =
      (unescapeLoop fuel cs).map (fun t => c :: t) := by
  by_cases hc1 : c = '\\'
  · subst hc1
    exact loop_of_step fuel '\\' ('\\' :: cs) ['\\'] cs rfl
  by_cases hc2 : c = '\t'
  · subst hc2
    exact loop_of_step fuel '\\' ('t' :: cs) ['\t'] cs rfl
  by_cases hc3 : c = '\n'
  · subst hc3
    exact loop_of_step fuel '\\' ('n' :: cs) ['\n'] cs rfl
  by_cases hc4 : c = '\r'
  · subst hc4
    exact loop_of_step fuel '\\' ('r' :: cs) ['\r'] cs rfl
  by_cases h5 : c.toNat < 32 ∨ c.toNat = 127
  · have hesc : escapeChar c = '\\' :: 'x' :: toHex 2 c.toNat := by
      simp only [escapeChar]
      rw [if_neg hc1, if_neg hc2, if_neg hc3, if_neg hc4, if_pos h5]
    have hv : c.toNat < 256 := by omega
    have htx : toHex 2 c.toNat ++ cs =
        hexDigitChar (c.toNat / 16 ^ 1 % 16) :: hexDigitChar (c.toNat / 16 ^ 0 % 16) :: cs := rfl
    rw [hesc, List.cons_append, List.cons_append, htx]
    rw [loop_of_step fuel '\\' _ _ cs
      (step_x _ _ _ _ cs (hexVal?_hexDigitChar _ (by omega)) (hexVal?_hexDigitChar _ (by omega)))]
    have hval : 16 * (c.toNat / 16 ^ 1 % 16) + c.toNat / 16 ^ 0 % 16 = c.toNat := by
      rw [pow_one, pow_zero, Nat.div_one]
      omega
    rw [hval, Char.ofNat_toNat]
    rfl
  by_cases h6 : c.toNat < 127
  · have hesc : escapeChar c = [c] := by
      simp only [escapeChar]
      rw [if_neg hc1, if_neg hc2, if_neg hc3, if_neg hc4, if_neg h5, if_pos h6]
    rw [hesc, List.singleton_append]
    rw [loop_of_step fuel c cs [c] cs (step_literal c cs hc1)]
    rfl
  by_cases h7 : c.toNat ≤ 255
  · have hesc : escapeChar c = '\\' :: 'x' :: toHex 2 c.toNat := by
      simp only [escapeChar]
      rw [if_neg hc1, if_neg hc2, if_neg hc3, if_neg hc4, if_neg h5, if_neg h6, if_pos h7]
    have htx : toHex 2 c.toNat ++ cs =
        hexDigitChar (c.toNat / 16 ^ 1 % 16) :: hexDigitChar (c.toNat / 16 ^ 0 % 16) :: cs := rfl
    rw [hesc, List.cons_append, List.cons_append, htx]
    rw [loop_of_step fuel '\\' _ _ cs
      (step_x _ _ _ _ cs (hexVal?_hexDigitChar _ (by omega)) (hexVal?_hexDigitChar _ (by omega)))]
    have hval : 16 * (c.toNat / 16 ^ 1 % 16) + c.toNat / 16 ^ 0 % 16 = c.toNat := by
      rw [pow_one, pow_zero, Nat.div_one]
      omega
    rw [hval, Char.ofNat_toNat]
    rfl
  by_cases h8 : c.toNat ≤ 65535
  · have hesc : escapeChar c = '\\' :: 'u' :: toHex 4 c.toNat := by
      simp only [escapeChar]
      rw [if_neg hc1, if_neg hc2, if_neg hc3, if_neg hc4, if_neg h5, if_neg h6, if_neg h7,
        if_pos h8]
    have htx : toHex 4 c.toNat ++ cs =
        hexDigitChar (c.toNat / 16 ^ 3 % 16) :: hexDigitChar (c.toNat / 16 ^ 2 % 16) ::
        hexDigitChar (c.toNat / 16 ^ 1 % 16) :: hexDigitChar (c.toNat / 16 ^ 0 % 16) :: cs := rfl
    rw [hesc, List.cons_append, List.cons_append, htx]
    rw [loop_of_step fuel '\\' _ _ cs
      (step_u _ _ _ _ _ _ _ _ cs (hexVal?_hexDigitChar _ (by omega))
        (hexVal?_hexDigitChar _ (by omega)) (hexVal?_hexDigitChar _ (by omega))
        (hexVal?_hexDigitChar _ (by omega)))]
    have hval : 4096 * (c.toNat / 16 ^ 3 % 16) + 256 * (c.toNat / 16 ^ 2 % 16)
        + 16 * (c.toNat / 16 ^ 1 % 16) + c.toNat / 16 ^ 0 % 16 = c.toNat := by
      have e3 : (16 : Nat) ^ 3 = 4096 := by norm_num
      have e2 : (16 : Nat) ^ 2 = 256 := by norm_num
      rw [e3, e2, pow_one, pow_zero, Nat.div_one]
      omega
    rw [hval, Char.ofNat_toNat]
    rfl
  · have hesc : escapeChar c = '\\' :: 'U' :: toHex 8 c.toNat := by
      simp only [escapeChar]
      rw [if_neg hc1, if_neg hc2, if_neg hc3, if_neg hc4, if_neg h5, if_neg h6, if_neg h7,
        if_neg h8]
    have htx : toHex 8 c.toNat ++ cs =
        hexDigitChar (c.toNat / 16 ^ 7 % 16) :: hexDigitChar (c.toNat / 16 ^ 6 % 16) ::
        hexDigitChar (c.toNat / 16 ^ 5 % 16) :: hexDigitChar (c.toNat / 16 ^ 4 % 16) ::
        hexDigitChar (c.toNat / 16 ^ 3 % 16) :: hexDigitChar (c.toNat / 16 ^ 2 % 16) ::
        hexDigitChar (c.toNat / 16 ^ 1 % 16) :: hexDigitChar (c.toNat / 16 ^ 0 % 16) :: cs := rfl
    rw [hesc, List.cons_append, List.cons_append, htx]
    have hlt := char_toNat_lt c
    have hval : ((((((c.toNat / 16 ^ 7 % 16 * 16 + c.toNat / 16 ^ 6 % 16) * 16
        + c.toNat / 16 ^ 5 % 16) * 16 + c.toNat / 16 ^ 4 % 16) * 16
        + c.toNat / 16 ^ 3 % 16) * 16 + c.toNat / 16 ^ 2 % 16) * 16
        + c.toNat / 16 ^ 1 % 16) * 16 + c.toNat / 16 ^ 0 % 16 = c.toNat := by
      have e7 : (16 : Nat) ^ 7 = 268435456 := by norm_num
      have e6 : (16 : Nat) ^ 6 = 16777216 := by norm_num
      have e5 : (16 : Nat) ^ 5 = 1048576 := by norm_num
      have e4 : (16 : Nat) ^ 4 = 65536 := by norm_num
      have e3 : (16 : Nat) ^ 3 = 4096 := by norm_num
      have e2 : (16 : Nat) ^ 2 = 256 := by norm_num
      rw [e7, e6, e5, e4, e3, e2, pow_one, pow_zero, Nat.div_one]
      omega
    rw [loop_of_step fuel '\\' _ _ cs
      (by
        rw [step_bigU _ _ _ _ _ _ _ _ _ _ _ _ _ _ _ _ cs
          (hexVal?_hexDigitChar _ (by omega)) (hexVal?_hexDigitChar _ (by omega))
          (hexVal?_hexDigitChar _ (by omega)) (hexVal?_hexDigitChar _ (by omega))
          (hexVal?_hexDigitChar _ (by omega)) (hexVal?_hexDigitChar _ (by omega))
          (hexVal?_hexDigitChar _ (by omega)) (hexVal?_hexDigitChar _ (by omega)), hval]
        rw [if_pos (by omega)])]
    rw [Char.ofNat_toNat]
    rfl



theorem escapeChar_length_pos (c : Char) : 0 < (escapeChar c).length := by
  unfold escapeChar
  repeat' split
  all_goals simp

theorem hexDigitChar_ascii (d : Nat) (hd : d < 16) : (hexDigitChar d).toNat < 128 := by
  interval_cases d <;> decide

theorem toHex_ascii (w n : Nat) : ∀ x ∈ toHex w n, x.toNat < 128 := by
  induction w generalizing n with
  | zero => intro x hx; simp [toHex] at hx
  | succ w ih =>
    intro x hx
    simp only [toHex, List.mem_cons] at hx
    rcases hx with rfl | hx
    · exact hexDigitChar_ascii _ (Nat.mod_lt _ (by norm_num))
    · exact ih n x hx

theorem escapeChar_ascii (c : Char) : ∀ x ∈ escapeChar c, x.toNat < 128 := by
  by_cases hc1 : c = '\\'
  · subst hc1; decide
  by_cases hc2 : c = '\t'
  · subst hc2; decide
  by_cases hc3 : c = '\n'
  · subst hc3; decide
  by_cases hc4 : c = '\r'
  · subst hc4; decide
  intro x hx
  by_cases h5 : c.toNat < 32 ∨ c.toNat = 127
  · rw [show escapeChar c = '\\' :: 'x' :: toHex 2 c.toNat from by
      simp only [escapeChar]; rw [if_neg hc1, if_neg hc2, if_neg hc3, if_neg hc4, if_pos h5]] at hx
    simp only [List.mem_cons] at hx
    rcases hx with rfl | rfl | hx
    · decide
    · decide
    · exact toHex_ascii 2 c.toNat x hx
  by_cases h6 : c.toNat < 127
  · rw [show escapeChar c = [c] from by
      simp only [escapeChar]
      rw [if_neg hc1, if_neg hc2, if_neg hc3, if_neg hc4, if_neg h5, if_pos h6]] at hx
    simp only [List.mem_singleton] at hx
    subst hx
    omega
  by_cases h7 : c.toNat ≤ 255
  · rw [show escapeChar c = '\\' :: 'x' :: toHex 2 c.toNat from by
      simp only [escapeChar]
      rw [if_neg hc1, if_neg hc2, if_neg hc3, if_neg hc4, if_neg h5, if_neg h6, if_pos h7]] at hx
    simp only [List.mem_cons] at hx
    rcases hx with rfl | rfl | hx
    · decide
    · decide
    · exact toHex_ascii 2 c.toNat x hx
  by_cases h8 : c.toNat ≤ 65535
  · rw [show escapeChar c = '\\' :: 'u' :: toHex 4 c.toNat from by
      simp only [escapeChar]
      rw [if_neg hc1, if_neg hc2, if_neg hc3, if_neg hc4, if_neg h5, if_neg h6, if_neg h7,
        if_pos h8]] at hx
    simp only [List.mem_cons] at hx
    rcases hx with rfl | rfl | hx
    · decide
    · decide
    · exact toHex_ascii 4 c.toNat x hx
  · rw [show escapeChar c = '\\' :: 'U' :: toHex 8 c.toNat from by
      simp only [escapeChar]
      rw [if_neg hc1, if_neg hc2, if_neg hc3, if_neg hc4, if_neg h5, if_neg h6, if_neg h7,
        if_neg h8]] at hx
    simp only [List.mem_cons] at hx
    rcases hx with rfl | rfl | hx
    · decide
    · decide
    · exact toHex_ascii 8 c.toNat x hx

theorem length_le_flatten_escape (l : List Char) :
    l.length ≤ ((l.map escapeChar).flatten).length := by
  induction l with
  | nil => simp
  | cons c l ih =>
    simp only [List.map_cons, List.flatten_cons, List.length_append, List.length_cons]
    have := escapeChar_length_pos c
    omega

theorem unescapeLoop_encode (l : List Char) :
    ∀ fuel, l.length ≤ fuel →
      unescapeLoop fuel ((l.map escapeChar).flatten) = some l := by
  induction l with
  | nil => intro fuel _; cases fuel <;> rfl
  | cons c l ih =>
    intro fuel hf
    simp only [List.map_cons, List.flatten_cons]
    cases fuel with
    | zero => simp at hf
    | succ f =>
      rw [unescapeLoop_escapeChar c _ f, ih f (by simpa using hf)]
      rfl

/-- C2: for every string — embedded nulls, backslashes and other control
characters included — unescaping the escaped form reproduces the original
exactly: `_csv_decode (_csv_encode s) = some s` (the `some` records that the
unescape step raised no exception). -/
theorem csv_escape_unescape_roundtrip (s : String) :
    _csv_decode (_csv_encode s) = some s := by
  have hdata : (_csv_encode s).data = (s.data.map escapeChar).flatten := rfl
  rw [_csv_decode, hdata]
  rw [if_pos]
  · rw [show unicodeUnescape ((s.data.map escapeChar).flatten) =
        unescapeLoop ((s.data.map escapeChar).flatten).length ((s.data.map escapeChar).flatten)
        from rfl]
    rw [unescapeLoop_encode s.data _ (length_le_flatten_escape s.data)]
    rfl
  · rw [List.all_eq_true]
    intro x hx
    simp only [List.mem_flatten, List.mem_map] at hx
    obtain ⟨sub, ⟨c, hc, rfl⟩, hxsub⟩ := hx
    simpa using escapeChar_ascii c x hxsub



theorem dictGet?_dictInsert {α : Type} (d : List (String × α)) (k k' : String) (v : α) :
    dictGet? (dictInsert d k v) k' = if k' = k then some v else dictGet? d k' := by
  by_cases hk : k' = k
  · subst hk
    rw [if_pos rfl]
    unfold dictInsert dictGet?
    by_cases hany : d.any (fun p => p.1 == k')
    · rw [if_pos hany]
      induction d with
      | nil => simp at hany
      | cons p d ih =>
        by_cases hp : p.1 = k'
        · rw [List.map_cons, if_pos (by simpa using hp)]
          rw [List.find?_cons_of_pos _ (by simp)]
          rfl
        · rw [List.map_cons, if_neg (by simpa using hp)]
          rw [List.find?_cons_of_neg _ (by simpa using hp)]
          apply ih
          simp only [List.any_cons, Bool.or_eq_true] at hany
          rcases hany with h | h
          · exact absurd (by simpa using h) hp
          · exact h
    · rw [if_neg hany]
      rw [List.find?_append]
      have hnone : d.find? (fun p => p.1 == k') = none := by
        rw [List.find?_eq_none]
        intro p hp
        simp only [List.any_eq_true] at hany
        exact fun hb => hany ⟨p, hp, hb⟩
      rw [hnone]
      simp
  · rw [if_neg hk]
    unfold dictInsert dictGet?
    by_cases hany : d.any (fun p => p.1 == k)
    · rw [if_pos hany]
      clear hany
      induction d with
      | nil => rfl
      | cons p d ih =>
        by_cases hp : p.1 = k
        · rw [List.map_cons, if_pos (by simpa using hp)]
          rw [List.find?_cons_of_neg _ (by
                intro h
                exact hk (Eq.symm (by simpa using h))),
              List.find?_cons_of_neg _ (by
                intro h
                have : p.1 = k' := by simpa using h
                exact hk (hp ▸ this).symm)]
          exact ih
        · rw [List.map_cons, if_neg (by simpa using hp)]
          by_cases hpk : p.1 = k'
          · rw [List.find?_cons_of_pos _ (by simpa using hpk),
                List.find?_cons_of_pos _ (by simpa using hpk)]
          · rw [List.find?_cons_of_neg _ (by simpa using hpk),
                List.find?_cons_of_neg _ (by simpa using hpk)]
            exact ih
    · rw [if_neg hany]
      rw [List.find?_append]
      have h2 : List.find? (fun p => p.1 == k') [(k, v)] = none := by
        rw [List.find?_cons_of_neg _ (by
          intro h
          exact hk (Eq.symm (by simpa using h)))]
        rfl
      rw [h2]
      simp



theorem getmember_of_mem_getnames (tf : List TarMember) (n : String)
    (h : n ∈ getnames tf) :
    ∃ m, getmember tf n = some m ∧ m ∈ tf ∧ m.name = n := by
  unfold getnames at h
  obtain ⟨m0, hm0, hname⟩ := List.mem_map.mp h
  have hmem : m0 ∈ tf.filter (fun m => m.name == n) :=
    List.mem_filter.mpr ⟨hm0, by simpa using hname⟩
  rcases hg : (tf.filter (fun m => m.name == n)).getLast? with _ | m
  · rw [List.getLast?_eq_none_iff] at hg
    rw [hg] at hmem
    simp at hmem
  · have hx : m ∈ (tf.filter (fun m => m.name == n)).getLast? := by
      rw [hg]
      rfl
    obtain ⟨hne, heq⟩ := List.mem_getLast?_eq_getLast hx
    have hmf : m ∈ tf.filter (fun m => m.name == n) := by
      rw [heq]
      exact List.getLast_mem hne
    obtain ⟨hmtf, hmn⟩ := List.mem_filter.mp hmf
    exact ⟨m, hg, hmtf, by simpa using hmn⟩

theorem filter_name_eq_nil (tf : List TarMember) (n : String)
    (h : ∀ y ∈ tf, y.name ≠ n) : tf.filter (fun m => m.name == n) = [] := by
  rw [List.filter_eq_nil_iff]
  intro m hm
  simpa using h m hm

theorem getmember_self_of_nodup (tf : List TarMember) (m : TarMember)
    (hnodup : (getnames tf).Nodup) (hm : m ∈ tf) :
    getmember tf m.name = some m := by
  unfold getmember
  induction tf with
  | nil => simp at hm
  | cons x tf ih =>
    unfold getnames at hnodup
    simp only [List.map_cons, List.nodup_cons] at hnodup
    obtain ⟨hxnot, hnd⟩ := hnodup
    rcases List.mem_cons.mp hm with rfl | hmtf
    · rw [List.filter_cons_of_pos (by simp)]
      have hrest : tf.filter (fun y => y.name == m.name) = [] := by
        apply filter_name_eq_nil
        intro y hy hyn
        exact hxnot (hyn ▸ List.mem_map_of_mem (fun z => z.name) hy)
      rw [hrest]
      rfl
    · have hxm : x.name ≠ m.name := by
        intro he
        exact hxnot (he ▸ List.mem_map_of_mem (fun z => z.name) hmtf)
      rw [List.filter_cons_of_neg (by simpa using hxm)]
      exact ih hnd hmtf

theorem metadataStage_ok_names (csvRows : List Byte → Except String (List (List String)))
    (tf : List TarMember) (ns : List String) (p : List String × Metadata)
    (h : metadataStage csvRows tf ns = .ok p) : p.1 = ns.erase "__METADATA__" := by
  unfold metadataStage at h
  split at h
  · split at h
    · simp at h
    · split at h
      · split at h
        · simp at h
        · split at h
          · simp at h
          · injection h with h2
            subst h2
            rfl
      · injection h with h2
        subst h2
        rfl
  · rename_i hc
    injection h with h2
    subst h2
    show ns = ns.erase "__METADATA__"
    rw [List.erase_of_not_mem (by simpa using hc)]

theorem contentStage_ok_names (tf : List TarMember) (ns : List String)
    (p : List String × String)
    (h : contentStage tf ns = .ok p) : p.1 = ns.erase "__TEXT__" := by
  unfold contentStage at h
  split at h
  · split at h
    · simp at h
    · split at h
      · split at h
        · injection h with h2
          subst h2
          rfl
        · simp at h
      · injection h with h2
        subst h2
        rfl
  · rename_i hc
    injection h with h2
    subst h2
    show ns = ns.erase "__TEXT__"
    rw [List.erase_of_not_mem (by simpa using hc)]



theorem attachFold_char (tf : List TarMember) (names : List String)
    (hsub : ∀ n ∈ names, n ∈ getnames tf) :
    ∀ acc : List (String × List Byte),
      ∃ att,
        names.foldlM
          (fun attachments attachment =>
            match getmember tf attachment with
            | none => Except.error "KeyError"
            | some m =>
              if !m.issym && m.isfile then
                Except.ok (dictInsert attachments attachment m.content)
              else Except.ok attachments)
          acc = Except.ok (ε := String) att ∧
        ∀ k, dictGet? att k =
          if k ∈ names ∧ attachValue tf k ≠ none then attachValue tf k
          else dictGet? acc k := by
  induction names with
  | nil =>
    intro acc
    refine ⟨acc, rfl, ?_⟩
    intro k
    simp
  | cons n names ih =>
    intro acc
    obtain ⟨m, hm, hmtf, hmn⟩ := getmember_of_mem_getnames tf n (hsub n (List.mem_cons_self n names))
    have hsub' : ∀ x ∈ names, x ∈ getnames tf := fun x hx => hsub x (List.mem_cons_of_mem n hx)
    rw [List.foldlM_cons, hm]
    dsimp only
    by_cases hreg : (!m.issym && m.isfile) = true
    · rw [if_pos hreg]
      obtain ⟨att, hfold, hchar⟩ := ih hsub' (dictInsert acc n m.content)
      refine ⟨att, by simpa using hfold, ?_⟩
      intro k
      rw [hchar k]
      have havn : attachValue tf n = some m.content := by
        unfold attachValue
        rw [hm]
        dsimp only
        rw [if_pos hreg]
      by_cases hk : k = n
      · subst hk
        rw [dictGet?_dictInsert]
        rw [if_pos rfl]
        by_cases hmem : k ∈ names
        · rw [if_pos ⟨hmem, by simp [havn]⟩, if_pos ⟨List.mem_cons_self k names, by simp [havn]⟩,
            havn]
        · rw [if_neg (by simp [hmem]), if_pos ⟨List.mem_cons_self k names, by simp [havn]⟩, havn]
      · rw [dictGet?_dictInsert, if_neg hk]
        have hmemiff : (k ∈ n :: names) ↔ (k ∈ names) := by
          constructor
          · intro hh
            rcases List.mem_cons.mp hh with rfl | hh
            · exact absurd rfl hk
            · exact hh
          · exact List.mem_cons_of_mem n
        by_cases hcond : k ∈ names ∧ attachValue tf k ≠ none
        · rw [if_pos hcond, if_pos ⟨hmemiff.mpr hcond.1, hcond.2⟩]
        · rw [if_neg hcond, if_neg (by
            intro hc2
            exact hcond ⟨hmemiff.mp hc2.1, hc2.2⟩)]
    · rw [if_neg hreg]
      obtain ⟨att, hfold, hchar⟩ := ih hsub' acc
      refine ⟨att, by simpa using hfold, ?_⟩
      intro k
      rw [hchar k]
      have havn : attachValue tf n = none := by
        unfold attachValue
        rw [hm]
        dsimp only
        rw [if_neg hreg]
      by_cases hk : k = n
      · subst hk
        rw [if_neg (by simp [havn]), if_neg (by simp [havn])]
      · have hmemiff : (k ∈ n :: names) ↔ (k ∈ names) := by
          constructor
          · intro hh
            rcases List.mem_cons.mp hh with rfl | hh
            · exact absurd rfl hk
            · exact hh
          · exact List.mem_cons_of_mem n
        by_cases hcond : k ∈ names ∧ attachValue tf k ≠ none
        · rw [if_pos hcond, if_pos ⟨hmemiff.mpr hcond.1, hcond.2⟩]
        · rw [if_neg hcond, if_neg (by
            intro hc2
            exact hcond ⟨hmemiff.mp hc2.1, hc2.2⟩)]

theorem attachmentsStage_char (tf : List TarMember) (names : List String)
    (hsub : ∀ n ∈ names, n ∈ getnames tf) :
    ∃ att, attachmentsStage tf names = .ok att ∧
      ∀ k, dictGet? att k = if k ∈ names then attachValue tf k else none := by
  obtain ⟨att, hfold, hchar⟩ := attachFold_char tf names hsub []
  refine ⟨att, hfold, ?_⟩
  intro k
  rw [hchar k]
  by_cases hmem : k ∈ names
  · by_cases hav : attachValue tf k = none
    · rw [if_neg (by simp [hav]), if_pos hmem, hav]
      rfl
    · rw [if_pos ⟨hmem, hav⟩, if_pos hmem]
  · rw [if_neg (by simp [hmem]), if_neg hmem]
    rfl



theorem metadataStep_err (md : Metadata) (line : List String) (hshort : line.length < 2) :
    metadataStep md line = .error "AssertionError: len(metadataLine) >= 2" := by
  unfold metadataStep
  rw [if_neg (by omega)]

theorem foldlM_metadataStep_err (line : List String) (hshort : line.length < 2) :
    ∀ (pre : List (List String)) (md : Metadata) (post : List (List String)),
      ∃ e, (pre ++ line :: post).foldlM metadataStep md = Except.error e := by
  intro pre
  induction pre with
  | nil =>
    intro md post
    refine ⟨"AssertionError: len(metadataLine) >= 2", ?_⟩
    rw [List.nil_append, List.foldlM_cons, metadataStep_err md line hshort]
    rfl
  | cons r pre ih =>
    intro md post
    rw [List.cons_append, List.foldlM_cons]
    rcases hs : metadataStep md r with e | md'
    · exact ⟨e, rfl⟩
    · obtain ⟨e, he⟩ := ih md' post
      exact ⟨e, by simpa using he⟩

theorem processMetadataLines_err (line : List String) (hshort : line.length < 2)
    (pre post : List (List String)) :
    ∃ e, processMetadataLines (pre ++ line :: post) = Except.error e :=
  foldlM_metadataStep_err line hshort pre [] post

theorem parseArchive_stages (csvRows : List Byte → Except String (List (List String)))
    (tf : List TarMember) (ns1 ns2 : List String) (md : Metadata) (ct : String)
    (att : List (String × List Byte))
    (h1 : metadataStage csvRows tf (getnames tf) = .ok (ns1, md))
    (h2 : contentStage tf ns1 = .ok (ns2, ct))
    (h3 : attachmentsStage tf ns2 = .ok att) :
    parseArchive csvRows tf =
      .ok [("content", PValue.text ct), ("metadata", PValue.meta md),
           ("attachments", PValue.attach att)] := by
  unfold parseArchive
  dsimp only
  rw [h1]
  show (contentStage tf ns1).bind _ = _
  rw [h2]
  show (attachmentsStage tf ns2).bind _ = _
  rw [h3]
  rfl

theorem parseArchive_md_err (csvRows : List Byte → Except String (List (List String)))
    (tf : List TarMember) (e : String)
    (h1 : metadataStage csvRows tf (getnames tf) = .error e) :
    parseArchive csvRows tf = .error e := by
  unfold parseArchive
  dsimp only
  rw [h1]
  rfl

theorem parseArchive_ct_err (csvRows : List Byte → Except String (List (List String)))
    (tf : List TarMember) (ns1 : List String) (md : Metadata) (e : String)
    (h1 : metadataStage csvRows tf (getnames tf) = .ok (ns1, md))
    (h2 : contentStage tf ns1 = .error e) :
    parseArchive csvRows tf = .error e := by
  unfold parseArchive
  dsimp only
  rw [h1]
  show (contentStage tf ns1).bind _ = _
  rw [h2]
  rfl

theorem parseArchive_att_err (csvRows : List Byte → Except String (List (List String)))
    (tf : List TarMember) (ns1 ns2 : List String) (md : Metadata) (ct : String) (e : String)
    (h1 : metadataStage csvRows tf (getnames tf) = .ok (ns1, md))
    (h2 : contentStage tf ns1 = .ok (ns2, ct))
    (h3 : attachmentsStage tf ns2 = .error e) :
    parseArchive csvRows tf = .error e := by
  unfold parseArchive
  dsimp only
  rw [h1]
  show (contentStage tf ns1).bind _ = _
  rw [h2]
  show (attachmentsStage tf ns2).bind _ = _
  rw [h3]
  rfl

theorem parseArchive_ok_shape (csvRows : List Byte → Except String (List (List String)))
    (tf : List TarMember) (r : ParsedResult)
    (h : parseArchive csvRows tf = .ok r) :
    ∃ ct md att,
      r = [("content", PValue.text ct), ("metadata", PValue.meta md),
           ("attachments", PValue.attach att)] := by
  rcases h1 : metadataStage csvRows tf (getnames tf) with e | ⟨ns1, md⟩
  · rw [parseArchive_md_err csvRows tf e h1] at h
    simp at h
  rcases h2 : contentStage tf ns1 with e | ⟨ns2, ct⟩
  · rw [parseArchive_ct_err csvRows tf ns1 md e h1 h2] at h
    simp at h
  rcases h3 : attachmentsStage tf ns2 with e | att
  · rw [parseArchive_att_err csvRows tf ns1 ns2 md ct e h1 h2 h3] at h
    simp at h
  rw [parseArchive_stages csvRows tf ns1 ns2 md ct att h1 h2 h3] at h
  exact ⟨ct, md, att, by simpa using h.symm⟩



theorem contentStage_empty_of_notreg (tf : List TarMember) (ns : List String) (m : TarMember)
    (hget : getmember tf "__TEXT__" = some m)
    (hnr : (!m.issym && m.isfile) = false) :
    ∀ p, contentStage tf ns = .ok p → p.2 = "" := by
  intro p h
  unfold contentStage at h
  split at h
  · rw [hget] at h
    dsimp only at h
    rw [if_neg (by simp [hnr])] at h
    injection h with h2
    subst h2
    rfl
  · injection h with h2
    subst h2
    rfl

theorem metadataStage_empty_of_notreg (csvRows : List Byte → Except String (List (List String)))
    (tf : List TarMember) (ns : List String) (m : TarMember)
    (hget : getmember tf "__METADATA__" = some m)
    (hnr : (!m.issym && m.isfile) = false) :
    ∀ p, metadataStage csvRows tf ns = .ok p → p.2 = [] := by
  intro p h
  unfold metadataStage at h
  split at h
  · rw [hget] at h
    dsimp only at h
    rw [if_neg (by simp [hnr])] at h
    injection h with h2
    subst h2
    rfl
  · injection h with h2
    subst h2
    rfl

theorem filter_name_singleton (tf : List TarMember) (m : TarMember)
    (hm : m ∈ tf) (hcount : (getnames tf).count m.name = 1) :
    tf.filter (fun x => x.name == m.name) = [m] := by
  induction tf with
  | nil => simp at hm
  | cons x tf ih =>
    unfold getnames at hcount
    rw [List.map_cons, List.count_cons] at hcount
    rcases List.mem_cons.mp hm with rfl | hmtf
    · have hzero : (tf.map (fun z => z.name)).count m.name = 0 := by
        simp at hcount
        omega
      rw [List.filter_cons_of_pos (by simp)]
      have hrest : tf.filter (fun y => y.name == m.name) = [] := by
        apply filter_name_eq_nil
        intro y hy hyn
        rw [List.count_eq_zero] at hzero
        exact hzero (hyn ▸ List.mem_map_of_mem (fun z => z.name) hy)
      rw [hrest]
    · have hmem_name : m.name ∈ tf.map (fun z => z.name) :=
        List.mem_map_of_mem (fun z => z.name) hmtf
      have hxname : x.name ≠ m.name := by
        intro he
        rw [if_pos (by simp [he])] at hcount
        have hzero : (tf.map (fun z => z.name)).count m.name = 0 := by omega
        rw [List.count_eq_zero] at hzero
        exact hzero hmem_name
      rw [if_neg (by simp; exact fun hh => hxname hh)] at hcount
      rw [List.filter_cons_of_neg (by simpa using hxname)]
      exact ih hmtf (by simpa using hcount)

theorem getmember_of_count_one (tf : List TarMember) (m : TarMember)
    (hm : m ∈ tf) (hcount : (getnames tf).count m.name = 1) :
    getmember tf m.name = some m := by
  unfold getmember
  rw [filter_name_singleton tf m hm hcount]
  rfl



/-- C9: the decoder never inspects the HTTP status code — for any two status
values and the same response body, `_parse` returns identical results, so a
non-success status is decoded exactly as a success would be. -/
theorem parse_ignores_status (tarOpen : List Byte → Except String (List TarMember))
    (csvRows : List Byte → Except String (List (List String)))
    (s1 s2 : Nat) (b : Option (List Byte)) :
    _parse tarOpen csvRows (some (s1, b)) = _parse tarOpen csvRows (some (s2, b)) := rfl

/-- C3: a metadata CSV row `[key, v1]` with exactly one value after the key is
stored as the scalar `v1`; a row `[key, v1, v2, ...]` with more than one value
is stored as the ordered sequence `[v1, v2, ...]`, preserving row order. -/
theorem metadata_row_scalar_or_seq (metadata : Metadata) (key v1 v2 : String)
    (vs : List String) :
    metadataStep metadata [key, v1] = .ok (dictInsert metadata key (MetaVal.scalar v1)) ∧
    metadataStep metadata (key :: v1 :: v2 :: vs) =
      .ok (dictInsert metadata key (MetaVal.seq (v1 :: v2 :: vs))) := by
  constructor
  · rfl
  · unfold metadataStep
    rw [if_pos (by simp only [List.length_cons]; omega),
        if_pos (by simp only [List.length_cons]; omega)]
    rfl

/-- C1 (counterexample to the claim as stated): decoding an empty byte buffer
returns the bare `{}` — the result carries *no* `content`, `metadata` or
`attachments` field, contradicting "all three fields present and default";
the `tarOpen` argument `fun _ => .error "tar"` also shows no archive is
consulted on this path. -/
theorem parse_empty_counterexample :
    _parse (fun _ => .error "tar") (fun _ => .ok []) (some (200, some [])) = .ok [] ∧
    dictGet? ([] : ParsedResult) "content" = none ∧
    dictGet? ([] : ParsedResult) "metadata" = none ∧
    dictGet? ([] : ParsedResult) "attachments" = none :=
  ⟨rfl, rfl, rfl, rfl⟩

/-- C1 (amended): when the response tuple is falsy, the raw bytes are `None`,
or the raw bytes are empty, `_parse` returns the *empty dictionary with no
fields* — for every tar opener, so no archive is opened — and every other
successful decode returns a record with exactly the three fields `content`,
`metadata`, `attachments` (in that insertion order). -/
theorem parse_empty_and_shape (tarOpen : List Byte → Except String (List TarMember))
    (csvRows : List Byte → Except String (List (List String)))
    (st : Nat) (b : List Byte) :
    _parse tarOpen csvRows none = .ok [] ∧
    _parse tarOpen csvRows (some (st, none)) = .ok [] ∧
    _parse tarOpen csvRows (some (st, some [])) = .ok [] ∧
    ∀ r, b ≠ [] → _parse tarOpen csvRows (some (st, some b)) = .ok r →
      ∃ ct md att,
        r = [("content", PValue.text ct), ("metadata", PValue.meta md),
             ("attachments", PValue.attach att)] := by
  refine ⟨rfl, rfl, rfl, ?_⟩
  intro r hb h
  unfold _parse at h
  dsimp only at h
  rw [if_neg hb] at h
  rcases ho : tarOpen b with e | tf
  · rw [ho] at h
    simp at h
  · rw [ho] at h
    dsimp only at h
    exact parseArchive_ok_shape csvRows tf r h

/-- C1 witness: the amended theorem applied to a concrete one-member archive. -/
theorem parse_empty_and_shape_witness :
    ∃ ct md att,
      ([(("content" : String), PValue.text ""), ("metadata", PValue.meta []),
        ("attachments", PValue.attach [("f", [7])])] : ParsedResult) =
        [("content", PValue.text ct), ("metadata", PValue.meta md),
         ("attachments", PValue.attach att)] :=
  (parse_empty_and_shape (fun _ => .ok [⟨"f", FType.reg, [7]⟩]) (fun _ => .ok [])
    200 [1]).2.2.2 _ (by decide) rfl



/-- C4: a parsed metadata CSV row with fewer than two fields (a key with no
value, or an empty row) is a fatal assertion failure: `_parse` propagates the
error and returns no `ParsedResult`, wherever the row occurs. -/
theorem metadata_short_row_fatal (tarOpen : List Byte → Except String (List TarMember))
    (csvRows : List Byte → Except String (List (List String)))
    (st : Nat) (bytes : List Byte) (tf : List TarMember) (m : TarMember)
    (line : List String) (pre post : List (List String))
    (hbytes : bytes ≠ [])
    (hopen : tarOpen bytes = .ok tf)
    (hmem : "__METADATA__" ∈ getnames tf)
    (hget : getmember tf "__METADATA__" = some m)
    (hreg : (!m.issym && m.isfile) = true)
    (hcsv : csvRows m.content = .ok (pre ++ line :: post))
    (hshort : line.length < 2) :
    ∃ e, _parse tarOpen csvRows (some (st, some bytes)) = .error e := by
  obtain ⟨e, he⟩ := processMetadataLines_err line hshort pre post
  have hstage : metadataStage csvRows tf (getnames tf) = .error e := by
    unfold metadataStage
    rw [if_pos (by simpa using hmem), hget]
    dsimp only
    rw [if_pos hreg, hcsv]
    dsimp only
    rw [he]
  refine ⟨e, ?_⟩
  unfold _parse
  dsimp only
  rw [if_neg hbytes, hopen]
  dsimp only
  exact parseArchive_md_err csvRows tf e hstage

/-- C4 witness: a concrete archive whose metadata CSV has a one-field row. -/
theorem metadata_short_row_fatal_witness :
    ∃ e, _parse (fun _ => .ok [⟨"__METADATA__", FType.reg, [65]⟩])
      (fun _ => .ok [["k"]]) (some (200, some [65])) = .error e :=
  metadata_short_row_fatal (fun _ => .ok [⟨"__METADATA__", FType.reg, [65]⟩])
    (fun _ => .ok [["k"]]) 200 [65] [⟨"__METADATA__", FType.reg, [65]⟩]
    ⟨"__METADATA__", FType.reg, [65]⟩ ["k"] [] []
    (by decide) rfl (by decide) rfl (by decide) rfl (by decide)

/-- C5: when the member that `__TEXT__` (resp. `__METADATA__`) resolves to is
a symbolic link, the decoder does not read it: `content` remains empty text
(resp. `metadata` remains the empty mapping). -/
theorem symlink_special_members_not_read
    (csvRows : List Byte → Except String (List (List String))) (tf : List TarMember) :
    (∀ m r, getmember tf "__TEXT__" = some m → m.issym = true →
      parseArchive csvRows tf = .ok r →
      dictGet? r "content" = some (PValue.text "")) ∧
    (∀ m r, getmember tf "__METADATA__" = some m → m.issym = true →
      parseArchive csvRows tf = .ok r →
      dictGet? r "metadata" = some (PValue.meta [])) := by
  constructor
  · intro m r hget hsym hok
    rcases h1 : metadataStage csvRows tf (getnames tf) with e | ⟨ns1, md⟩
    · rw [parseArchive_md_err csvRows tf e h1] at hok
      simp at hok
    rcases h2 : contentStage tf ns1 with e | ⟨ns2, ct⟩
    · rw [parseArchive_ct_err csvRows tf ns1 md e h1 h2] at hok
      simp at hok
    rcases h3 : attachmentsStage tf ns2 with e | att
    · rw [parseArchive_att_err csvRows tf ns1 ns2 md ct e h1 h2 h3] at hok
      simp at hok
    rw [parseArchive_stages csvRows tf ns1 ns2 md ct att h1 h2 h3] at hok
    injection hok with h4
    subst h4
    have hct : ct = "" :=
      contentStage_empty_of_notreg tf ns1 m hget (by simp [hsym]) (ns2, ct) h2
    rw [hct]
    rfl
  · intro m r hget hsym hok
    rcases h1 : metadataStage csvRows tf (getnames tf) with e | ⟨ns1, md⟩
    · rw [parseArchive_md_err csvRows tf e h1] at hok
      simp at hok
    rcases h2 : contentStage tf ns1 with e | ⟨ns2, ct⟩
    · rw [parseArchive_ct_err csvRows tf ns1 md e h1 h2] at hok
      simp at hok
    rcases h3 : attachmentsStage tf ns2 with e | att
    · rw [parseArchive_att_err csvRows tf ns1 ns2 md ct e h1 h2 h3] at hok
      simp at hok
    rw [parseArchive_stages csvRows tf ns1 ns2 md ct att h1 h2 h3] at hok
    injection hok with h4
    subst h4
    have hmd : md = [] :=
      metadataStage_empty_of_notreg csvRows tf (getnames tf) m hget (by simp [hsym])
        (ns1, md) h1
    rw [hmd]
    rfl

/-- C5 witness: an archive whose `__TEXT__` and `__METADATA__` members are
symbolic links. -/
theorem symlink_special_members_not_read_witness :
    dictGet? [(("content" : String), PValue.text ""), ("metadata", PValue.meta []),
        ("attachments", PValue.attach [])] "content" = some (PValue.text "") ∧
    dictGet? [(("content" : String), PValue.text ""), ("metadata", PValue.meta []),
        ("attachments", PValue.attach [])] "metadata" = some (PValue.meta []) :=
  ⟨(symlink_special_members_not_read (fun _ => .error "csv")
      [⟨"__TEXT__", FType.sym, [255]⟩, ⟨"__METADATA__", FType.sym, [0]⟩]).1
      ⟨"__TEXT__", FType.sym, [255]⟩ _ (by decide) rfl rfl,
   (symlink_special_members_not_read (fun _ => .error "csv")
      [⟨"__TEXT__", FType.sym, [255]⟩, ⟨"__METADATA__", FType.sym, [0]⟩]).2
      ⟨"__METADATA__", FType.sym, [0]⟩ _ (by decide) rfl rfl⟩



/-- C7 (counterexample to the claim as stated): for the valid UTF-8 body
`b"a\r\n"` of a regular `__TEXT__` member, the decoded `content` is `"a\n"`,
not the plain UTF-8 decoding `"a\r\n"`: `TextIOWrapper`'s default
universal-newlines mode translates the line ending. -/
theorem text_utf8_newline_counterexample :
    _parse (fun _ => .ok [⟨"__TEXT__", FType.reg, [97, 13, 10]⟩]) (fun _ => .ok [])
        (some (200, some [1])) =
      .ok [("content", PValue.text "a\n"), ("metadata", PValue.meta []),
           ("attachments", PValue.attach [])] ∧
    utf8Decode [97, 13, 10] = some ['a', '\r', '\n'] ∧
    ("a\n" : String) ≠ "a\r\n" := by
  refine ⟨rfl, rfl, by decide⟩

/-- C7 (amended): non-UTF-8 bytes in a regular `__TEXT__` member abort the
decode — an error is propagated and no `ParsedResult` is returned, with no
replacement characters — while valid UTF-8 bytes yield `content` equal to
their UTF-8 decoding *after universal-newlines translation* (`"\r\n"` and
lone `"\r"` become `"\n"`), which the claim's plain "UTF-8 decoding"
overlooks. -/
theorem text_utf8_strict_or_translated
    (tarOpen : List Byte → Except String (List TarMember))
    (csvRows : List Byte → Except String (List (List String)))
    (st : Nat) (bytes : List Byte) (tf : List TarMember) (m : TarMember)
    (hbytes : bytes ≠ [])
    (hopen : tarOpen bytes = .ok tf)
    (hmem : "__TEXT__" ∈ getnames tf)
    (hget : getmember tf "__TEXT__" = some m)
    (hreg : (!m.issym && m.isfile) = true) :
    (utf8Decode m.content = none →
      ∃ e, _parse tarOpen csvRows (some (st, some bytes)) = .error e) ∧
    (∀ cs, utf8Decode m.content = some cs →
      ∀ r, _parse tarOpen csvRows (some (st, some bytes)) = .ok r →
        dictGet? r "content" =
          some (PValue.text (String.mk (translateNewlines cs)))) := by
  have hparse : _parse tarOpen csvRows (some (st, some bytes)) = parseArchive csvRows tf := by
    unfold _parse
    dsimp only
    rw [if_neg hbytes, hopen]
  constructor
  · intro hutf
    rw [hparse]
    rcases h1 : metadataStage csvRows tf (getnames tf) with e | ⟨ns1, md⟩
    · exact ⟨e, parseArchive_md_err csvRows tf e h1⟩
    · have hns1 : ns1 = (getnames tf).erase "__METADATA__" :=
        metadataStage_ok_names csvRows tf (getnames tf) (ns1, md) h1
      have hmem1 : "__TEXT__" ∈ ns1 := by
        rw [hns1]
        exact List.mem_erase_of_ne (by decide) |>.mpr hmem
      have h2 : contentStage tf ns1 = .error "UnicodeDecodeError" := by
        unfold contentStage
        rw [if_pos (by simpa using hmem1), hget]
        dsimp only
        rw [if_pos hreg]
        have hrt : readText m.content = none := by
          unfold readText
          rw [hutf]
          rfl
        rw [hrt]
      exact ⟨"UnicodeDecodeError", parseArchive_ct_err csvRows tf ns1 md _ h1 h2⟩
  · intro cs hutf r hok
    rw [hparse] at hok
    rcases h1 : metadataStage csvRows tf (getnames tf) with e | ⟨ns1, md⟩
    · rw [parseArchive_md_err csvRows tf e h1] at hok
      simp at hok
    have hns1 : ns1 = (getnames tf).erase "__METADATA__" :=
      metadataStage_ok_names csvRows tf (getnames tf) (ns1, md) h1
    have hmem1 : "__TEXT__" ∈ ns1 := by
      rw [hns1]
      exact List.mem_erase_of_ne (by decide) |>.mpr hmem
    have h2 : contentStage tf ns1 =
        .ok (ns1.erase "__TEXT__", String.mk (translateNewlines cs)) := by
      unfold contentStage
      rw [if_pos (by simpa using hmem1), hget]
      dsimp only
      rw [if_pos hreg]
      have hrt : readText m.content = some (String.mk (translateNewlines cs)) := by
        unfold readText
        rw [hutf]
        rfl
      rw [hrt]
    rcases h3 : attachmentsStage tf (ns1.erase "__TEXT__") with e | att
    · rw [parseArchive_att_err csvRows tf ns1 _ md _ e h1 h2 h3] at hok
      simp at hok
    · rw [parseArchive_stages csvRows tf ns1 _ md _ att h1 h2 h3] at hok
      injection hok with h4
      subst h4
      rfl

/-- C7 witness: a regular `__TEXT__` member holding the invalid UTF-8 byte
`0xff` makes the decode fail. -/
theorem text_utf8_strict_or_translated_witness :
    ∃ e, _parse (fun _ => .ok [⟨"__TEXT__", FType.reg, [255]⟩]) (fun _ => .ok [])
      (some (200, some [1])) = .error e :=
  (text_utf8_strict_or_translated (fun _ => .ok [⟨"__TEXT__", FType.reg, [255]⟩])
    (fun _ => .ok []) 200 [1] [⟨"__TEXT__", FType.reg, [255]⟩]
    ⟨"__TEXT__", FType.reg, [255]⟩ (by decide) rfl (by decide) rfl (by decide)).1 rfl



/-- C6: on an archive with distinct member names whose metadata and content
stages succeeded, the attachments loop never fails; every remaining member
that is a regular file has its full raw bytes, unmodified, in the attachments
mapping under its member name; remaining directory and symbolic-link members
are silently omitted; and no other key appears. -/
theorem attachments_raw_bytes_regular_only
    (csvRows : List Byte → Except String (List (List String))) (tf : List TarMember)
    (ns1 ns2 : List String) (md : Metadata) (ct : String)
    (hnodup : (getnames tf).Nodup)
    (h1 : metadataStage csvRows tf (getnames tf) = .ok (ns1, md))
    (h2 : contentStage tf ns1 = .ok (ns2, ct)) :
    ∃ att,
      parseArchive csvRows tf =
        .ok [("content", PValue.text ct), ("metadata", PValue.meta md),
             ("attachments", PValue.attach att)] ∧
      (∀ m ∈ tf, m.name ∈ remainingNames tf →
        dictGet? att m.name = if !m.issym && m.isfile then some m.content else none) ∧
      (∀ k, k ∉ remainingNames tf → dictGet? att k = none) := by
  have hns1 : ns1 = (getnames tf).erase "__METADATA__" :=
    metadataStage_ok_names csvRows tf (getnames tf) (ns1, md) h1
  have hns2 : ns2 = ns1.erase "__TEXT__" :=
    contentStage_ok_names tf ns1 (ns2, ct) h2
  have hrem : ns2 = remainingNames tf := by
    rw [hns2, hns1]
    rfl
  have hsub : ∀ n ∈ ns2, n ∈ getnames tf := by
    intro n hn
    rw [hrem] at hn
    exact List.erase_subset _ _ (List.erase_subset _ _ hn)
  obtain ⟨att, hstage, hchar⟩ := attachmentsStage_char tf ns2 hsub
  refine ⟨att, parseArchive_stages csvRows tf ns1 ns2 md ct att h1 h2 hstage, ?_, ?_⟩
  · intro m hm hrm
    rw [hchar m.name, if_pos (by rw [hrem]; exact hrm)]
    unfold attachValue
    rw [getmember_self_of_nodup tf m hnodup hm]
  · intro k hk
    rw [hchar k, if_neg (by rw [hrem]; exact hk)]

/-- C6 witness: an archive with a regular file, a directory and a symlink. -/
theorem attachments_raw_bytes_regular_only_witness :
    ∃ att,
      parseArchive (fun _ => .ok [])
          ([⟨"a.png", FType.reg, [0, 255]⟩, ⟨"d", FType.dir, []⟩,
            ⟨"s", FType.sym, [1]⟩] : List TarMember) =
        .ok [("content", PValue.text ""), ("metadata", PValue.meta []),
             ("attachments", PValue.attach att)] ∧
      (∀ m ∈ ([⟨"a.png", FType.reg, [0, 255]⟩, ⟨"d", FType.dir, []⟩,
               ⟨"s", FType.sym, [1]⟩] : List TarMember),
        m.name ∈ remainingNames ([⟨"a.png", FType.reg, [0, 255]⟩, ⟨"d", FType.dir, []⟩,
               ⟨"s", FType.sym, [1]⟩] : List TarMember) →
        dictGet? att m.name = if !m.issym && m.isfile then some m.content else none) ∧
      (∀ k, k ∉ remainingNames ([⟨"a.png", FType.reg, [0, 255]⟩, ⟨"d", FType.dir, []⟩,
               ⟨"s", FType.sym, [1]⟩] : List TarMember) → dictGet? att k = none) :=
  attachments_raw_bytes_regular_only (fun _ => .ok [])
    ([⟨"a.png", FType.reg, [0, 255]⟩, ⟨"d", FType.dir, []⟩,
      ⟨"s", FType.sym, [1]⟩] : List TarMember)
    ["a.png", "d", "s"] ["a.png", "d", "s"] [] "" (by decide) rfl rfl

/-- C10: a sole member named `__METADATA__` or `__TEXT__` that is not a
regular file (symbolic link, directory, ...) is dropped entirely: the name is
removed from the working list, it populates neither `metadata` nor `content`,
and it does not appear as a key in the attachments mapping. -/
theorem special_nonregular_dropped_entirely
    (csvRows : List Byte → Except String (List (List String))) (tf : List TarMember)
    (m : TarMember)
    (hm : m ∈ tf)
    (hcount : (getnames tf).count m.name = 1)
    (hname : m.name = "__METADATA__" ∨ m.name = "__TEXT__")
    (hnotreg : (!m.issym && m.isfile) = false) :
    ∀ r, parseArchive csvRows tf = .ok r →
      (m.name = "__TEXT__" → dictGet? r "content" = some (PValue.text "")) ∧
      (m.name = "__METADATA__" → dictGet? r "metadata" = some (PValue.meta [])) ∧
      (∀ att, dictGet? r "attachments" = some (PValue.attach att) →
        dictGet? att m.name = none) := by
  intro r hok
  have hget : getmember tf m.name = some m := getmember_of_count_one tf m hm hcount
  rcases h1 : metadataStage csvRows tf (getnames tf) with e | ⟨ns1, md⟩
  · rw [parseArchive_md_err csvRows tf e h1] at hok
    simp at hok
  rcases h2 : contentStage tf ns1 with e | ⟨ns2, ct⟩
  · rw [parseArchive_ct_err csvRows tf ns1 md e h1 h2] at hok
    simp at hok
  rcases h3 : attachmentsStage tf ns2 with e | att
  · rw [parseArchive_att_err csvRows tf ns1 ns2 md ct e h1 h2 h3] at hok
    simp at hok
  rw [parseArchive_stages csvRows tf ns1 ns2 md ct att h1 h2 h3] at hok
  injection hok with h4
  subst h4
  have hns1 : ns1 = (getnames tf).erase "__METADATA__" :=
    metadataStage_ok_names csvRows tf (getnames tf) (ns1, md) h1
  have hns2 : ns2 = ns1.erase "__TEXT__" :=
    contentStage_ok_names tf ns1 (ns2, ct) h2
  have hnotin : m.name ∉ ns2 := by
    rw [hns2, hns1]
    rcases hname with hM | hT
    · intro hmem2
      have hmem1 : m.name ∈ (getnames tf).erase "__METADATA__" :=
        List.erase_subset _ _ hmem2
      rw [hM] at hmem1 hcount
      have : ((getnames tf).erase "__METADATA__").count "__METADATA__" = 0 := by
        rw [List.count_erase_self, hcount]
      rw [List.count_eq_zero] at this
      exact this hmem1
    · intro hmem2
      rw [hT] at hmem2 hcount
      have hc1 : (((getnames tf).erase "__METADATA__").erase "__TEXT__").count "__TEXT__"
          = 0 := by
        rw [List.count_erase_self, List.count_erase_of_ne (by decide), hcount]
      rw [List.count_eq_zero] at hc1
      exact hc1 hmem2
  have hsub : ∀ n ∈ ns2, n ∈ getnames tf := by
    intro n hn
    rw [hns2, hns1] at hn
    exact List.erase_subset _ _ (List.erase_subset _ _ hn)
  obtain ⟨att2, hstage2, hchar2⟩ := attachmentsStage_char tf ns2 hsub
  have hatteq : att2 = att := by
    rw [h3] at hstage2
    injection hstage2 with h5
    exact h5.symm
  subst hatteq
  refine ⟨?_, ?_, ?_⟩
  · intro hT
    rw [hT] at hget
    have hct : ct = "" :=
      contentStage_empty_of_notreg tf ns1 m hget hnotreg (ns2, ct) h2
    rw [hct]
    rfl
  · intro hM
    rw [hM] at hget
    have hmd : md = [] :=
      metadataStage_empty_of_notreg csvRows tf (getnames tf) m hget hnotreg (ns1, md) h1
    rw [hmd]
    rfl
  · intro att' hatt
    have hatt2 : some (PValue.attach att2) = some (PValue.attach att') := hatt
    injection hatt2 with h6
    injection h6 with h7
    rw [← h7, hchar2 m.name, if_neg hnotin]



/-- C10 witness: an archive whose sole `__TEXT__` member is a symlink. -/
theorem special_nonregular_dropped_entirely_witness :
    (("__TEXT__" : String) = "__TEXT__" →
      dictGet? [(("content" : String), PValue.text ""), ("metadata", PValue.meta []),
        ("attachments", PValue.attach [("x", [1])])] "content" =
        some (PValue.text "")) ∧
    (("__TEXT__" : String) = "__METADATA__" →
      dictGet? [(("content" : String), PValue.text ""), ("metadata", PValue.meta []),
        ("attachments", PValue.attach [("x", [1])])] "metadata" =
        some (PValue.meta [])) ∧
    (∀ att, dictGet? [(("content" : String), PValue.text ""), ("metadata", PValue.meta []),
        ("attachments", PValue.attach [("x", [1])])] "attachments" =
        some (PValue.attach att) →
      dictGet? att "__TEXT__" = none) :=
  special_nonregular_dropped_entirely (fun _ => .ok [])
    ([⟨"__TEXT__", FType.sym, [255]⟩, ⟨"x", FType.reg, [1]⟩] : List TarMember)
    ⟨"__TEXT__", FType.sym, [255]⟩ (List.mem_cons_self _ _) (by decide) (Or.inr rfl) rfl
    [("content", PValue.text ""), ("metadata", PValue.meta []),
     ("attachments", PValue.attach [("x", [1])])] rfl

end Tika.Unpack
